import Mathlib

/-
Verification of the citation-compass specification: a shallow embedding of
the docstring citation extractor, the process-wide registry, the context
stack and the annotation API, together with proofs of the spec's claims.

The Python implementation of the `citation_compass` package is not part of
the sources available here (only its README and tutorial notebooks are), so
every definition below is modelled from the specification text, as its doc
comment records.
-/

namespace CitationCompass

/-! ## Docstring citation extractor (spec section 4.1)

Text is modelled as `List Char` (a docstring `String` is viewed through its
character data), so every operation is structurally recursive and fully
executable. -/

/-- Modelled from the spec: whitespace characters trimmed "around delimiters"
and by the verbatim-fallback trim. Missing code: the extractor of the
`citation_compass` package. -/
def isSpaceChar (c : Char) : Bool :=
  decide (c = ' ') || decide (c = '\t') || decide (c = '\r') || decide (c = '\n')

/-- Modelled from the spec: trimming surrounding whitespace from a piece of
text. -/
def trimChars (l : List Char) : List Char :=
  ((l.dropWhile isSpaceChar).reverse.dropWhile isSpaceChar).reverse

/-- Modelled from the spec: case-insensitive keyword matching; ASCII
lower-casing of a character. -/
def lowerChar (c : Char) : Char :=
  if decide ('A' ≤ c) && decide (c ≤ 'Z') then Char.ofNat (c.toNat + 32) else c

/-- Modelled from the spec: case-insensitive keyword matching; ASCII
lower-casing of a piece of text. -/
def lowerChars (l : List Char) : List Char :=
  l.map lowerChar

/-- Modelled from the spec: "is a prefix of" test used for the Google-style
keyword-colon match. -/
def prefixOfChars : List Char → List Char → Bool
  | [], _ => true
  | _ :: _, [] => false
  | a :: as, b :: bs => decide (a = b) && prefixOfChars as bs

/-- Modelled from the spec: the four case-insensitive keywords `citation`,
`citations`, `reference`, `references` recognised by the extractor. -/
def keywords : List (List Char) :=
  ["citation".data, "citations".data, "reference".data, "references".data]

/-- Modelled from the spec: a line whose trimmed content is exactly one of
the keywords (case-insensitively), as required by the numpy style. -/
def isKeywordLine (l : List Char) : Bool :=
  decide (lowerChars (trimChars l) ∈ keywords)

/-- Modelled from the spec: a line consisting of two or more `-`
characters (the numpy-style underline), whitespace around it trimmed. -/
def isDashUnderline (l : List Char) : Bool :=
  decide (2 ≤ (trimChars l).length) && (trimChars l).all (fun c => decide (c = '-'))

/-- Modelled from the spec: Google-style match on one line — a recognised
keyword immediately followed by `:`; the citation text is everything after
the colon on that line only, trimmed. -/
def googleMatch (l : List Char) : Option (List Char) :=
  match keywords.find? (fun k => prefixOfChars (k ++ [':']) (lowerChars (trimChars l))) with
  | some k => some (trimChars ((trimChars l).drop (k.length + 1)))
  | none => none

/-- Modelled from the spec: an ASCII letter, used to recognise generalized
section-header words. -/
def isAlphaChar (c : Char) : Bool :=
  (decide ('a' ≤ c) && decide (c ≤ 'z')) || (decide ('A' ≤ c) && decide (c ≤ 'Z'))

/-- Modelled from the spec: the text before the first `:` of a line, if the
line has a colon at all. -/
def beforeColon : List Char → Option (List Char)
  | [] => none
  | c :: cs => if decide (c = ':') then some [] else (beforeColon cs).map (fun w => c :: w)

/-- Modelled from the spec: any line matching the same header patterns,
citation-related or not — the Google-shaped generalized header: a nonempty
all-letter word immediately followed by `:`. -/
def googleHeaderLine (l : List Char) : Bool :=
  match beforeColon (trimChars l) with
  | some w => decide (w ≠ []) && w.all isAlphaChar
  | none => false

/-- Modelled from the spec: a recognized section header starting at the head
of the given line suffix — either a generalized Google-shaped header line,
or a nonempty line followed by a dash underline (numpy shape). -/
def isHeaderStart : List (List Char) → Bool
  | [] => false
  | l :: rest =>
    googleHeaderLine l ||
      (decide (trimChars l ≠ []) &&
        (match rest with
         | l2 :: _ => isDashUnderline l2
         | [] => false))

/-- Modelled from the spec: the numpy-style capture — every subsequent line
up to (but not including) the next recognized section header or end of
text. -/
def captureLines : List (List Char) → List (List Char)
  | [] => []
  | l :: rest => if isHeaderStart (l :: rest) then [] else l :: captureLines rest

/-- Modelled from the spec: joining captured lines back into one block of
text with newlines. -/
def joinLines : List (List Char) → List Char
  | [] => []
  | [l] => l
  | l :: l2 :: rest => l ++ '\n' :: joinLines (l2 :: rest)

/-- Modelled from the spec: the match attempted at the head of a suffix of
the docstring's lines — first the Google style on the head line, then the
numpy style (keyword line followed by a dash underline, capturing until the
next recognized section header). -/
def matchHere : List (List Char) → Option (List Char)
  | [] => none
  | l :: rest =>
    match googleMatch l with
    | some t => some t
    | none =>
      if isKeywordLine l then
        match rest with
        | l2 :: rest2 =>
          if isDashUnderline l2 then
            some (trimChars (joinLines (captureLines rest2)))
          else none
        | [] => none
      else none

/-- Modelled from the spec: the scan over the docstring's lines; only the
first matching section is used — tie-break: earliest occurrence wins. -/
def scanLines : List (List Char) → Option (List Char)
  | [] => none
  | l :: rest =>
    match matchHere (l :: rest) with
    | some t => some t
    | none => scanLines rest

/-- Modelled from the spec: splitting a docstring into its lines. -/
def splitLinesAux : List Char → List Char → List (List Char)
  | [], acc => [acc.reverse]
  | c :: cs, acc =>
    if decide (c = '\n') then acc.reverse :: splitLinesAux cs []
    else splitLinesAux cs (c :: acc)

/-- Modelled from the spec: splitting a docstring into its lines. -/
def splitLines (s : List Char) : List (List Char) :=
  splitLinesAux s []

/-- Modelled from the spec: the docstring citation extractor (spec 4.1).
Missing code: `citation_compass`'s extractor function. Scans for the first
matching citation section; if no such section is found, fall back to
returning the entire docstring verbatim (trimmed). -/
def extract_citation (doc : String) : String :=
  match scanLines (splitLines doc.data) with
  | some t => String.mk t
  | none => String.mk (trimChars doc.data)

/-- Modelled from the spec: extraction from a possibly absent docstring —
"an empty result if no docstring exists". -/
def extractFromDocstring : Option String → String
  | none => ""
  | some d => extract_citation d

/-! ## Data model (spec section 3) -/

/-- Modelled from the spec: a `CitationEntry` — identity (qualified name), a
human-readable label, citation text, and the `track_used` flag. The
`importMarker` flag records a module-only entry registered purely as
an import marker (no explicit citation text), which the query accessors
filter on. Missing code: the `citation_compass` registry data model. -/
structure CitationEntry where
  identity : String
  label : String
  citationText : String
  trackUsed : Bool
  importMarker : Bool
deriving DecidableEq, Repr

/-- Modelled from the spec: a `ContextFrame` — a named, independent `used`
set plus the name under which it was opened; `fid` is the frame's own
identity, which "is not tied to its name". -/
structure Frame where
  fid : Nat
  name : String
  used : List String
deriving DecidableEq, Repr

/-- Modelled from the spec: the process-wide state — the registry's `known`
entries in insertion order, the `used` identity set (insertion order), the
stack of currently open frame ids (head is the top), every frame ever
opened (the frame object owns its data, so it stays here after closing),
the per-wrapped-callable call-once flags, and the next fresh frame id. -/
structure System where
  known : List CitationEntry
  used : List String
  openStack : List Nat
  frames : List Frame
  wrapperMarked : List String
  nextFid : Nat
deriving DecidableEq, Repr

/-- The identities of a list of entries, in order. -/
def idsOf (l : List CitationEntry) : List String :=
  l.map (fun e => e.identity)

/-- Insert into a set kept as an insertion-ordered duplicate-free list; a
no-op when the element is already present (only ever added, never
cleared). -/
def insertUnique (l : List String) (x : String) : List String :=
  if x ∈ l then l else l ++ [x]

/-- Modelled from the spec: the keyed upsert backing `register` — entries
are keyed by identity; re-registration under the same identity
overwrites/merges, never duplicates, keeping insertion order
("first-registered first"). -/
def upsert : List CitationEntry → CitationEntry → List CitationEntry
  | [], e => [e]
  | x :: xs, e => if x.identity = e.identity then e :: xs else x :: upsert xs e

/-- The registry entry stored under an identity, if any. -/
def lookupEntry (s : System) (id : String) : Option CitationEntry :=
  s.known.find? (fun e => decide (e.identity = id))

/-- The empty process state ("created at first use"). -/
def initSystem : System :=
  { known := [], used := [], openStack := [], frames := [], wrapperMarked := [], nextFid := 0 }

/-! ## Registry and context stack operations (spec sections 4.2 and 4.3) -/

/-- Modelled from the spec: the internal entry-level registration —
idempotent upsert into `known`; if `track_used=False`, also inserts into
`used` immediately; never raises, last-write-wins on label and citation
text. -/
def registerEntry (s : System) (e : CitationEntry) : System :=
  { s with
    known := upsert s.known e
    used := if e.trackUsed then s.used else insertUnique s.used e.identity }

/-- Modelled from the spec: `register(identity, label, citation_text,
track_used)` of section 4.2 (ordinary, non-import-marker entries). -/
def register (s : System) (id lb txt : String) (trackUsed : Bool) : System :=
  registerEntry s
    { identity := id, label := lb, citationText := txt, trackUsed := trackUsed,
      importMarker := false }

/-- Modelled from the spec: `broadcast_used(identity)` — inserts identity
into every currently open frame's set. -/
def broadcast_used (s : System) (id : String) : System :=
  { s with
    frames := s.frames.map (fun fr =>
      if fr.fid ∈ s.openStack then { fr with used := insertUnique fr.used id } else fr) }

/-- Modelled from the spec: `mark_used(identity)` — inserts identity into
`used` if present in `known` (no-op if called for an unregistered
identity); when it succeeds for an identity carrying `track_used=True` it
also broadcasts to every open frame; entries with `track_used=False` are
never broadcast. -/
def mark_used (s : System) (id : String) : System :=
  match lookupEntry s id with
  | none => s
  | some e =>
    if e.trackUsed then broadcast_used { s with used := insertUnique s.used id } id
    else { s with used := insertUnique s.used id }

/-- Modelled from the spec: `open(name)` — pushes a fresh frame with an
empty `used` set onto the stack and returns its handle (the fresh id). -/
def openFrame (s : System) (name : String) : System × Nat :=
  ({ s with
      frames := s.frames ++ [{ fid := s.nextFid, name := name, used := [] }]
      openStack := s.nextFid :: s.openStack
      nextFid := s.nextFid + 1 },
   s.nextFid)

/-- Modelled from the spec: the `ContextMismatch` error raised by `close`
when the closed frame is not the top of the stack. -/
inductive CtxError where
  | contextMismatch
deriving DecidableEq, Repr

/-- Modelled from the spec: `close(frame)` — pops the frame; fails with a
`ContextMismatch` error if the frame being closed is not the top of the
stack. The frame's own data is owned by the frame and is left untouched. -/
def closeFrame (s : System) (fid : Nat) : Except CtxError System :=
  match s.openStack with
  | [] => Except.error CtxError.contextMismatch
  | top :: rest =>
    if top = fid then Except.ok { s with openStack := rest }
    else Except.error CtxError.contextMismatch

/-! ## Annotation API (spec section 4.4) -/

/-- Modelled from the spec: the function/method wrapper annotation — it
registers the callable (consulting the extractor for default citation text)
and installs a fresh wrapper whose call-once "used" flag is clear, so
`mark_used` will fire on the first invocation of this wrapped callable. -/
def cite_function (s : System) (id : String)
    (docstring explicitText label : Option String) (trackUsed : Bool) : System :=
  let s1 := register s id (label.getD id)
    (explicitText.getD (extractFromDocstring docstring)) trackUsed
  { s1 with wrapperMarked := s1.wrapperMarked.erase id }

/-- The entry stored by `cite_function` (spelled out for the proofs). -/
def fnEntry (id : String) (docstring explicitText label : Option String)
    (trackUsed : Bool) : CitationEntry :=
  { identity := id, label := label.getD id,
    citationText := explicitText.getD (extractFromDocstring docstring),
    trackUsed := trackUsed, importMarker := false }

/-- Modelled from the spec: one invocation of a wrapped callable — the
wrapper calls `mark_used` exactly once per distinct wrapped callable
object (not once per call)"; with `track_used=False` "no wrapping overhead
is added at call time. -/
def callWrapped (s : System) (id : String) : System :=
  match lookupEntry s id with
  | none => s
  | some e =>
    if e.trackUsed then
      if id ∈ s.wrapperMarked then s
      else mark_used { s with wrapperMarked := insertUnique s.wrapperMarked id } id
    else s

/-- Modelled from the spec: the module marker — registers the (calling or
explicitly named) module's qualified name as both known and used
simultaneously; entries without explicit citation text are module-only
module-list markers, and module entries are never use-tracked at call time. -/
def cite_module (s : System) (name : String) (explicitText : Option String) : System :=
  registerEntry s
    { identity := name, label := name, citationText := explicitText.getD name,
      trackUsed := false, importMarker := explicitText.isNone }

/-! ## Query API (spec sections 4.5 and 6) -/

/-- Modelled from the spec: the formatting contract — each string must
identify the citable thing (its qualified location) and its citation
text. -/
def formatEntry (e : CitationEntry) : String :=
  e.identity ++ ": " ++ e.citationText

/-- Modelled from the spec: the entries visible to the accessors — when
`include_imports` is false, module-only entries registered purely as import
markers are excluded. -/
def visibleEntries (s : System) (includeImports : Bool) : List CitationEntry :=
  if includeImports then s.known
  else s.known.filter (fun e => decide (e.importMarker = false))

/-- Modelled from the spec: `all_citations(include_imports)` — one formatted
string per known visible identity, insertion order. -/
def all_citations (s : System) (includeImports : Bool) : List String :=
  (visibleEntries s includeImports).map formatEntry

/-- The visible entries restricted to the `used` set. -/
def usedEntries (s : System) (includeImports : Bool) : List CitationEntry :=
  (visibleEntries s includeImports).filter (fun e => decide (e.identity ∈ s.used))

/-- Modelled from the spec: `used_citations(include_imports)` — same
filtering, restricted to `used`. -/
def used_citations (s : System) (includeImports : Bool) : List String :=
  (usedEntries s includeImports).map formatEntry

/-- The identities appearing in `all_citations`. -/
def allIdentities (s : System) (includeImports : Bool) : List String :=
  idsOf (visibleEntries s includeImports)

/-- The identities appearing in `used_citations`. -/
def usedIdentities (s : System) (includeImports : Bool) : List String :=
  idsOf (usedEntries s includeImports)

/-- The frame owned by a given handle, if one was ever opened. -/
def frameOf (s : System) (fid : Nat) : Option Frame :=
  s.frames.find? (fun fr => decide (fr.fid = fid))

/-- The `used` set captured by a frame handle. -/
def frameUsed (s : System) (fid : Nat) : List String :=
  (Option.map Frame.used (frameOf s fid)).getD []

/-- Modelled from the spec: the frame handle's `get_citations()` — the
formatted strings "reflecting that frame's `used` set at call time". -/
def get_citations (s : System) (fid : Nat) : List String :=
  (s.known.filter (fun e => decide (e.identity ∈ frameUsed s fid))).map formatEntry

/-! ## Operation sequences -/

/-- Modelled from the spec: the operations a program run can perform against
the registry and context stack — plain registration, the annotation-API
forms, use marking, invocation of a wrapped callable, and context
open/close. -/
inductive Op where
  | register (id lb txt : String) (trackUsed : Bool)
  | citeFun (id : String) (docstring explicitText label : Option String) (trackUsed : Bool)
  | citeModule (name : String) (explicitText : Option String)
  | markUsed (id : String)
  | call (id : String)
  | openF (name : String)
  | closeF (fid : Nat)

/-- One step of a program run; a failed `close` surfaces its error to the
caller and leaves the shared state unchanged. -/
def step (s : System) : Op → System
  | Op.register id lb txt tu => register s id lb txt tu
  | Op.citeFun id doc txt lb tu => cite_function s id doc txt lb tu
  | Op.citeModule name txt => cite_module s name txt
  | Op.markUsed id => mark_used s id
  | Op.call id => callWrapped s id
  | Op.openF name => (openFrame s name).1
  | Op.closeF fid =>
    match closeFrame s fid with
    | Except.ok s2 => s2
    | Except.error _ => s

/-- Run a sequence of operations from a given state. -/
def runFrom (s : System) (ops : List Op) : System :=
  ops.foldl step s

/-- Run a sequence of operations from the empty initial state: the states of
the form `runOps ops` are exactly the reachable states of a process. -/
def runOps (ops : List Op) : System :=
  runFrom initSystem ops

/-- The well-formedness invariant maintained by every operation: known
identities are duplicate-free, the call-once flag set is duplicate-free,
and every frame ever opened has an id below the fresh-id counter. -/
def WF (s : System) : Prop :=
  (idsOf s.known).Nodup ∧ s.wrapperMarked.Nodup ∧ ∀ fr ∈ s.frames, fr.fid < s.nextFid

/-! ## Helper lemmas: insertion-ordered sets and the keyed upsert -/

theorem mem_insertUnique_self (l : List String) (x : String) : x ∈ insertUnique l x := by
  unfold insertUnique
  split
  · assumption
  · exact List.mem_append.mpr (Or.inr (List.mem_singleton.mpr rfl))

theorem mem_insertUnique_of_mem (l : List String) (x a : String) (h : a ∈ l) :
    a ∈ insertUnique l x := by
  unfold insertUnique
  split
  · exact h
  · exact List.mem_append.mpr (Or.inl h)

theorem insertUnique_nodup (l : List String) (x : String) (h : l.Nodup) :
    (insertUnique l x).Nodup := by
  unfold insertUnique
  split
  · exact h
  · rename_i hx
    rw [List.nodup_append]
    exact ⟨h, List.nodup_singleton x, by
      intro a ha hb
      rw [List.mem_singleton] at hb
      exact hx (hb ▸ ha)⟩

@[simp]
theorem idsOf_nil : idsOf [] = [] := rfl

@[simp]
theorem idsOf_cons (x : CitationEntry) (xs : List CitationEntry) :
    idsOf (x :: xs) = x.identity :: idsOf xs := rfl

theorem idsOf_upsert_of_mem (l : List CitationEntry) (e : CitationEntry)
    (h : e.identity ∈ idsOf l) : idsOf (upsert l e) = idsOf l := by
  induction l with
  | nil => simp at h
  | cons x xs ih =>
    by_cases hx : x.identity = e.identity
    · simp [upsert, hx]
    · have h2 : e.identity ∈ idsOf xs := by
        rcases List.mem_cons.mp (by simpa using h) with h1 | h1
        · exact absurd h1.symm hx
        · exact h1
      simp [upsert, hx, ih h2]

theorem idsOf_upsert_of_not_mem (l : List CitationEntry) (e : CitationEntry)
    (h : e.identity ∉ idsOf l) : idsOf (upsert l e) = idsOf l ++ [e.identity] := by
  induction l with
  | nil => simp [upsert]
  | cons x xs ih =>
    have hx : x.identity ≠ e.identity := by
      intro heq
      exact h (by simp [heq])
    have h2 : e.identity ∉ idsOf xs := by
      intro hmem
      exact h (by simp [hmem])
    simp [upsert, hx, ih h2]

theorem nodup_idsOf_upsert (l : List CitationEntry) (e : CitationEntry)
    (h : (idsOf l).Nodup) : (idsOf (upsert l e)).Nodup := by
  by_cases hm : e.identity ∈ idsOf l
  · rw [idsOf_upsert_of_mem l e hm]
    exact h
  · rw [idsOf_upsert_of_not_mem l e hm]
    rw [List.nodup_append]
    refine ⟨h, List.nodup_singleton _, ?_⟩
    intro a ha hb
    rw [List.mem_singleton] at hb
    exact hm (hb ▸ ha)

theorem find?_upsert (l : List CitationEntry) (e : CitationEntry) :
    (upsert l e).find? (fun x => decide (x.identity = e.identity)) = some e := by
  induction l with
  | nil => simp [upsert]
  | cons x xs ih =>
    by_cases hx : x.identity = e.identity
    · simp [upsert, hx]
    · simp [upsert, hx, ih]

theorem mem_upsert_self (l : List CitationEntry) (e : CitationEntry) :
    e ∈ upsert l e :=
  List.mem_of_find?_eq_some (find?_upsert l e)

theorem filter_key_single (l : List CitationEntry) (f : String) (e : CitationEntry)
    (hnd : (idsOf l).Nodup)
    (hfind : l.find? (fun x => decide (x.identity = f)) = some e) :
    l.filter (fun x => decide (x.identity = f)) = [e] := by
  induction l with
  | nil => simp at hfind
  | cons x xs ih =>
    by_cases hx : x.identity = f
    · have hxe : x = e := by
        have := List.find?_cons_of_pos (p := fun x => decide (x.identity = f)) xs
          (by simpa using hx)
        rw [this] at hfind
        exact Option.some.inj hfind
      have hrest : xs.filter (fun x => decide (x.identity = f)) = [] := by
        rw [List.filter_eq_nil_iff]
        intro a ha
        simp only [decide_eq_true_eq]
        intro haf
        have hnotin : x.identity ∉ idsOf xs := (List.nodup_cons.mp (by simpa using hnd)).1
        exact hnotin (by
          rw [hx, ← haf]
          exact List.mem_map_of_mem (fun e => e.identity) ha)
      simp [List.filter_cons, hx, hrest, hxe, hxe ▸ hx]
    · have hfind2 : xs.find? (fun x => decide (x.identity = f)) = some e := by
        have := List.find?_cons_of_neg (p := fun x => decide (x.identity = f)) xs
          (by simpa using hx)
        rw [this] at hfind
        exact hfind
      have hnd2 : (idsOf xs).Nodup := (List.nodup_cons.mp (by simpa using hnd)).2
      simp [List.filter_cons, hx, ih hnd2 hfind2]

/-! ## Helper lemmas: which fields each operation touches -/

theorem broadcast_known (s : System) (id : String) :
    (broadcast_used s id).known = s.known := rfl

theorem broadcast_usedSet (s : System) (id : String) :
    (broadcast_used s id).used = s.used := rfl

theorem broadcast_openStack (s : System) (id : String) :
    (broadcast_used s id).openStack = s.openStack := rfl

theorem broadcast_wrapperMarked (s : System) (id : String) :
    (broadcast_used s id).wrapperMarked = s.wrapperMarked := rfl

theorem broadcast_nextFid (s : System) (id : String) :
    (broadcast_used s id).nextFid = s.nextFid := rfl

theorem mark_used_of_none (s : System) (id : String)
    (h : lookupEntry s id = none) : mark_used s id = s := by
  unfold mark_used
  simp [h]

theorem mark_used_known (s : System) (id : String) :
    (mark_used s id).known = s.known := by
  unfold mark_used
  split
  · rfl
  · split <;> rfl

theorem mark_used_wrapperMarked (s : System) (id : String) :
    (mark_used s id).wrapperMarked = s.wrapperMarked := by
  unfold mark_used
  split
  · rfl
  · split <;> rfl

theorem mark_used_openStack (s : System) (id : String) :
    (mark_used s id).openStack = s.openStack := by
  unfold mark_used
  split
  · rfl
  · split <;> rfl

theorem mark_used_nextFid (s : System) (id : String) :
    (mark_used s id).nextFid = s.nextFid := by
  unfold mark_used
  split
  · rfl
  · split <;> rfl

theorem mark_used_usedSet (s : System) (id : String) (e : CitationEntry)
    (h : lookupEntry s id = some e) :
    (mark_used s id).used = insertUnique s.used id := by
  unfold mark_used
  simp only [h]
  split <;> rfl

theorem mark_used_frames_untracked (s : System) (id : String) (e : CitationEntry)
    (h : lookupEntry s id = some e) (ht : e.trackUsed = false) :
    (mark_used s id).frames = s.frames := by
  unfold mark_used
  simp [h, ht]

theorem mark_used_frames_tracked (s : System) (id : String) (e : CitationEntry)
    (h : lookupEntry s id = some e) (ht : e.trackUsed = true) :
    (mark_used s id).frames = s.frames.map (fun fr =>
      if fr.fid ∈ s.openStack then { fr with used := insertUnique fr.used id } else fr) := by
  unfold mark_used
  simp [h, ht, broadcast_used]

theorem callWrapped_known (s : System) (id : String) :
    (callWrapped s id).known = s.known := by
  unfold callWrapped
  split
  · rfl
  · split
    · split
      · rfl
      · rw [mark_used_known]
    · rfl

theorem callWrapped_openStack (s : System) (id : String) :
    (callWrapped s id).openStack = s.openStack := by
  unfold callWrapped
  split
  · rfl
  · split
    · split
      · rfl
      · rw [mark_used_openStack]
    · rfl

theorem callWrapped_nextFid (s : System) (id : String) :
    (callWrapped s id).nextFid = s.nextFid := by
  unfold callWrapped
  split
  · rfl
  · split
    · split
      · rfl
      · rw [mark_used_nextFid]
    · rfl

theorem registerEntry_fields (s : System) (e : CitationEntry) :
    (registerEntry s e).openStack = s.openStack ∧
    (registerEntry s e).frames = s.frames ∧
    (registerEntry s e).wrapperMarked = s.wrapperMarked ∧
    (registerEntry s e).nextFid = s.nextFid :=
  ⟨rfl, rfl, rfl, rfl⟩

/-! ## Helper lemmas: the well-formedness invariant is maintained -/

theorem wf_initSystem : WF initSystem := by
  refine ⟨List.nodup_nil, List.nodup_nil, ?_⟩
  intro fr h
  simp [initSystem] at h

theorem wf_registerEntry (s : System) (e : CitationEntry) (h : WF s) :
    WF (registerEntry s e) := by
  obtain ⟨h1, h2, h3⟩ := h
  exact ⟨nodup_idsOf_upsert s.known e h1, h2, h3⟩

theorem wf_register (s : System) (id lb txt : String) (tu : Bool) (h : WF s) :
    WF (register s id lb txt tu) :=
  wf_registerEntry s _ h

theorem wf_cite_function (s : System) (id : String)
    (doc txt lb : Option String) (tu : Bool) (h : WF s) :
    WF (cite_function s id doc txt lb tu) := by
  obtain ⟨h1, h2, h3⟩ := wf_register s id (lb.getD id)
    (txt.getD (extractFromDocstring doc)) tu h
  exact ⟨h1, List.Nodup.erase id h2, h3⟩

theorem wf_cite_module (s : System) (name : String) (txt : Option String) (h : WF s) :
    WF (cite_module s name txt) :=
  wf_registerEntry s _ h

theorem wf_mark_used (s : System) (id : String) (h : WF s) :
    WF (mark_used s id) := by
  obtain ⟨h1, h2, h3⟩ := h
  refine ⟨by rw [mark_used_known]; exact h1, by rw [mark_used_wrapperMarked]; exact h2, ?_⟩
  intro fr hfr
  rw [mark_used_nextFid]
  cases hl : lookupEntry s id with
  | none =>
    rw [mark_used_of_none s id hl] at hfr
    exact h3 fr hfr
  | some e =>
    cases ht : e.trackUsed with
    | false =>
      rw [mark_used_frames_untracked s id e hl ht] at hfr
      exact h3 fr hfr
    | true =>
      rw [mark_used_frames_tracked s id e hl ht] at hfr
      obtain ⟨fr0, hfr0, heq⟩ := List.mem_map.mp hfr
      have : fr.fid = fr0.fid := by
        subst heq
        split <;> rfl
      rw [this]
      exact h3 fr0 hfr0

theorem wf_callWrapped (s : System) (id : String) (h : WF s) :
    WF (callWrapped s id) := by
  unfold callWrapped
  split
  · exact h
  · split
    · split
      · exact h
      · apply wf_mark_used
        obtain ⟨h1, h2, h3⟩ := h
        exact ⟨h1, insertUnique_nodup _ _ h2, h3⟩
    · exact h

theorem wf_openFrame (s : System) (name : String) (h : WF s) :
    WF (openFrame s name).1 := by
  obtain ⟨h1, h2, h3⟩ := h
  refine ⟨h1, h2, ?_⟩
  intro fr hfr
  simp only [openFrame, List.mem_append, List.mem_singleton] at hfr
  rcases hfr with hfr | hfr
  · exact Nat.lt_succ_of_lt (h3 fr hfr)
  · rw [hfr]
    exact Nat.lt_succ_self _

theorem wf_step (s : System) (op : Op) (h : WF s) : WF (step s op) := by
  cases op with
  | register id lb txt tu => exact wf_register s id lb txt tu h
  | citeFun id doc txt lb tu => exact wf_cite_function s id doc txt lb tu h
  | citeModule name txt => exact wf_cite_module s name txt h
  | markUsed id => exact wf_mark_used s id h
  | call id => exact wf_callWrapped s id h
  | openF name => exact wf_openFrame s name h
  | closeF fid =>
    show WF (match closeFrame s fid with
      | Except.ok s2 => s2
      | Except.error _ => s)
    unfold closeFrame
    cases s.openStack with
    | nil => exact h
    | cons top rest =>
      by_cases htop : top = fid
      · simp only [htop, if_pos rfl]
        exact ⟨h.1, h.2.1, h.2.2⟩
      · simp only [if_neg htop]
        exact h

theorem wf_runFrom (ops : List Op) : ∀ s : System, WF s → WF (runFrom s ops) := by
  induction ops with
  | nil => intro s h; exact h
  | cons op rest ih =>
    intro s h
    exact ih (step s op) (wf_step s op h)

theorem wf_runOps (ops : List Op) : WF (runOps ops) :=
  wf_runFrom ops initSystem wf_initSystem

/-! ## Helper lemmas: visible entries and lookups -/

theorem visible_sublist (s : System) (ii : Bool) :
    List.Sublist (visibleEntries s ii) s.known := by
  unfold visibleEntries
  cases ii with
  | false =>
    simp only [Bool.false_eq_true, if_false]
    exact List.filter_sublist s.known
  | true =>
    simp only [if_true]
    exact List.Sublist.refl s.known

theorem mem_visible (s : System) (ii : Bool) (e : CitationEntry)
    (he : e ∈ s.known) (him : e.importMarker = false) : e ∈ visibleEntries s ii := by
  unfold visibleEntries
  cases ii with
  | false =>
    simp only [Bool.false_eq_true, if_false]
    exact List.mem_filter.mpr ⟨he, by simp [him]⟩
  | true =>
    simp only [if_true]
    exact he

theorem nodup_ids_visible (s : System) (ii : Bool) (h : (idsOf s.known).Nodup) :
    (idsOf (visibleEntries s ii)).Nodup := by
  unfold idsOf at h ⊢
  exact List.Nodup.sublist
    (List.Sublist.map (fun e => e.identity) (visible_sublist s ii)) h

theorem lookupEntry_register (s : System) (id lb txt : String) (tu : Bool) :
    lookupEntry (register s id lb txt tu) id =
      some { identity := id, label := lb, citationText := txt, trackUsed := tu,
             importMarker := false } := by
  unfold lookupEntry register registerEntry
  dsimp only
  exact find?_upsert s.known
    { identity := id, label := lb, citationText := txt, trackUsed := tu, importMarker := false }

theorem mem_allIdentities (s : System) (ii : Bool) (e : CitationEntry)
    (he : e ∈ s.known) (him : e.importMarker = false) :
    e.identity ∈ allIdentities s ii :=
  List.mem_map_of_mem (fun e => e.identity) (mem_visible s ii e he him)

theorem mem_usedIdentities (s : System) (ii : Bool) (e : CitationEntry)
    (he : e ∈ s.known) (him : e.importMarker = false) (hu : e.identity ∈ s.used) :
    e.identity ∈ usedIdentities s ii :=
  List.mem_map_of_mem (fun e => e.identity)
    (List.mem_filter.mpr ⟨mem_visible s ii e he him, by simpa using hu⟩)

theorem not_mem_usedIdentities (s : System) (ii : Bool) (f : String)
    (hu : f ∉ s.used) : f ∉ usedIdentities s ii := by
  intro hmem
  obtain ⟨e, he, hfe⟩ := List.mem_map.mp hmem
  have h2 : e.identity ∈ s.used := by
    simpa using (List.mem_filter.mp he).2
  exact hu (hfe ▸ h2)

theorem nodup_usedIdentities (s : System) (ii : Bool)
    (h : (idsOf s.known).Nodup) : (usedIdentities s ii).Nodup := by
  unfold usedIdentities usedEntries
  unfold idsOf at h ⊢
  refine List.Nodup.sublist (List.Sublist.map (fun e : CitationEntry => e.identity) ?_) h
  exact List.Sublist.trans (List.filter_sublist _) (visible_sublist s ii)

theorem nodup_allIdentities (s : System) (ii : Bool)
    (h : (idsOf s.known).Nodup) : (allIdentities s ii).Nodup :=
  nodup_ids_visible s ii h

/-! ## Claim theorems -/

/-- C1: across every sequence of operations and both values of
`include_imports`, the strings (and identities) of `used_citations` form a
subset of those of `all_citations`; moreover registering an entry with
`track_used=False` puts its identity into `used` at registration time and
into `known` at the same instant, so the subset invariant holds at every
instant of the process. -/
theorem C1_used_subset_all (ops : List Op) (ii : Bool) (id lb txt : String) :
    (∀ x ∈ used_citations (runOps ops) ii, x ∈ all_citations (runOps ops) ii)
    ∧ (∀ x ∈ usedIdentities (runOps ops) ii, x ∈ allIdentities (runOps ops) ii)
    ∧ id ∈ (register (runOps ops) id lb txt false).used
    ∧ id ∈ idsOf (register (runOps ops) id lb txt false).known := by
  refine ⟨?_, ?_, ?_, ?_⟩
  · intro x hx
    obtain ⟨e, he, hfe⟩ := List.mem_map.mp hx
    exact hfe ▸ List.mem_map_of_mem formatEntry (List.mem_of_mem_filter he)
  · intro x hx
    obtain ⟨e, he, hfe⟩ := List.mem_map.mp hx
    exact hfe ▸ List.mem_map_of_mem (fun e => e.identity) (List.mem_of_mem_filter he)
  · show id ∈ (registerEntry (runOps ops) _).used
    unfold registerEntry
    simp only [Bool.false_eq_true, if_false]
    exact mem_insertUnique_self _ id
  · exact List.mem_map_of_mem (fun e => e.identity) (mem_upsert_self (runOps ops).known _)

/-- Witness for C1 at a concrete operation sequence. -/
theorem C1_used_subset_all_witness :
    (∀ x ∈ used_citations (runOps [Op.register "a" "A" "T" false]) false,
      x ∈ all_citations (runOps [Op.register "a" "A" "T" false]) false)
    ∧ (∀ x ∈ usedIdentities (runOps [Op.register "a" "A" "T" false]) false,
      x ∈ allIdentities (runOps [Op.register "a" "A" "T" false]) false)
    ∧ "m" ∈ (register (runOps [Op.register "a" "A" "T" false]) "m" "M" "TT" false).used
    ∧ "m" ∈ idsOf (register (runOps [Op.register "a" "A" "T" false]) "m" "M" "TT" false).known :=
  C1_used_subset_all [Op.register "a" "A" "T" false] false "m" "M" "TT"

/-- C4: `close` on a frame that is not the current top of the stack fails
with `ContextMismatch` (surfaced to the caller); `close` on the current top
— the strictly-LIFO discipline — always succeeds, popping the stack. -/
theorem C4_close_lifo (s : System) (fid : Nat) :
    (s.openStack.head? = some fid →
      closeFrame s fid = Except.ok { s with openStack := s.openStack.tail })
    ∧ (s.openStack.head? ≠ some fid →
      closeFrame s fid = Except.error CtxError.contextMismatch) := by
  unfold closeFrame
  cases hs : s.openStack with
  | nil =>
    refine ⟨?_, ?_⟩
    · intro h
      simp at h
    · intro _
      rfl
  | cons top rest =>
    refine ⟨?_, ?_⟩
    · intro h
      have htop : top = fid := by
        simpa using h
      dsimp only
      rw [if_pos htop]
      rfl
    · intro h
      have htop : ¬ top = fid := by
        intro heq
        exact h (by simp [heq])
      dsimp only
      rw [if_neg htop]

/-- Witness for C4: closing the top frame succeeds, closing a non-top
handle raises `ContextMismatch`. -/
theorem C4_close_lifo_witness :
    closeFrame (openFrame initSystem "ctx").1 0 =
      Except.ok { (openFrame initSystem "ctx").1 with
                  openStack := (openFrame initSystem "ctx").1.openStack.tail }
    ∧ closeFrame (openFrame initSystem "ctx").1 1 =
      Except.error CtxError.contextMismatch :=
  ⟨(C4_close_lifo (openFrame initSystem "ctx").1 0).1 (by decide),
   (C4_close_lifo (openFrame initSystem "ctx").1 1).2 (by decide)⟩

/-- C9: a successful `close` pops the stack but leaves every frame's own
data untouched: the closed handle still resolves to the same frame, and
`get_citations` on it returns exactly what was captured while it was
open. -/
theorem C9_frame_survives_close (s s2 : System) (fid : Nat)
    (h : closeFrame s fid = Except.ok s2) :
    frameOf s2 fid = frameOf s fid
    ∧ get_citations s2 fid = get_citations s fid
    ∧ s2.frames = s.frames
    ∧ s2.known = s.known
    ∧ s2.openStack = s.openStack.tail := by
  unfold closeFrame at h
  cases hs : s.openStack with
  | nil =>
    rw [hs] at h
    cases h
  | cons top rest =>
    rw [hs] at h
    dsimp only at h
    by_cases htop : top = fid
    · rw [if_pos htop] at h
      have h2 : { s with openStack := rest } = s2 := by
        exact Except.ok.inj h
      rw [← h2]
      exact ⟨rfl, rfl, rfl, rfl, rfl⟩
    · rw [if_neg htop] at h
      cases h

/-- Witness for C9 at a concrete open/close pair. -/
theorem C9_frame_survives_close_witness :
    frameOf { (openFrame initSystem "a").1 with openStack := [] } 0 =
      frameOf (openFrame initSystem "a").1 0
    ∧ get_citations { (openFrame initSystem "a").1 with openStack := [] } 0 =
      get_citations (openFrame initSystem "a").1 0
    ∧ ({ (openFrame initSystem "a").1 with openStack := [] } : System).frames =
      (openFrame initSystem "a").1.frames
    ∧ ({ (openFrame initSystem "a").1 with openStack := [] } : System).known =
      (openFrame initSystem "a").1.known
    ∧ ({ (openFrame initSystem "a").1 with openStack := [] } : System).openStack =
      (openFrame initSystem "a").1.openStack.tail :=
  C9_frame_survives_close (openFrame initSystem "a").1
    { (openFrame initSystem "a").1 with openStack := [] } 0 rfl

/-- C10: the module marker registers the named module and inserts its
identity into both `known` and `used` in the same single registration
step. -/
theorem C10_module_marker (s : System) (name : String) (text : Option String) :
    name ∈ idsOf (cite_module s name text).known
    ∧ name ∈ (cite_module s name text).used := by
  constructor
  · exact List.mem_map_of_mem (fun e => e.identity) (mem_upsert_self s.known _)
  · show name ∈ (registerEntry s _).used
    unfold registerEntry
    simp only [Bool.false_eq_true, if_false]
    exact mem_insertUnique_self _ name


/-- C5: re-registering an identity never raises (registration is a total
operation), never duplicates — the identity's count in the `all_citations`
identities stays exactly 1 — the later label and citation text win, and
`used` membership is never removed by re-registration. -/
theorem C5_reregistration (ops : List Op) (id lb1 txt1 lb2 txt2 : String)
    (t1 t2 : Bool) (ii : Bool) :
    (allIdentities (register (register (runOps ops) id lb1 txt1 t1) id lb2 txt2 t2) ii).count id = 1
    ∧ lookupEntry (register (register (runOps ops) id lb1 txt1 t1) id lb2 txt2 t2) id =
        some { identity := id, label := lb2, citationText := txt2, trackUsed := t2,
               importMarker := false }
    ∧ ∀ x ∈ (register (runOps ops) id lb1 txt1 t1).used,
        x ∈ (register (register (runOps ops) id lb1 txt1 t1) id lb2 txt2 t2).used := by
  have hwf : WF (register (register (runOps ops) id lb1 txt1 t1) id lb2 txt2 t2) :=
    wf_register _ id lb2 txt2 t2 (wf_register _ id lb1 txt1 t1 (wf_runOps ops))
  refine ⟨?_, lookupEntry_register _ id lb2 txt2 t2, ?_⟩
  · apply List.count_eq_one_of_mem (nodup_allIdentities _ ii hwf.1)
    exact mem_allIdentities _ ii
      { identity := id, label := lb2, citationText := txt2, trackUsed := t2,
        importMarker := false }
      (mem_upsert_self _ _) rfl
  · intro x hx
    show x ∈ (registerEntry _ _).used
    unfold registerEntry
    dsimp only
    cases t2 with
    | true => simpa using hx
    | false =>
      simp only [Bool.false_eq_true, if_false]
      exact mem_insertUnique_of_mem _ _ _ hx

/-- Witness for C5 at a concrete double registration. -/
theorem C5_reregistration_witness :
    (allIdentities (register (register (runOps []) "a" "L1" "T1" true) "a" "L2" "T2" false) false).count "a" = 1
    ∧ lookupEntry (register (register (runOps []) "a" "L1" "T1" true) "a" "L2" "T2" false) "a" =
        some { identity := "a", label := "L2", citationText := "T2", trackUsed := false,
               importMarker := false }
    ∧ ∀ x ∈ (register (runOps []) "a" "L1" "T1" true).used,
        x ∈ (register (register (runOps []) "a" "L1" "T1" true) "a" "L2" "T2" false).used :=
  C5_reregistration [] "a" "L1" "T1" "L2" "T2" true false false

/-! ## Helper lemmas: the wrapper's call-once behaviour -/

theorem lookupEntry_known_congr (s1 s2 : System) (id : String)
    (h : s1.known = s2.known) : lookupEntry s1 id = lookupEntry s2 id := by
  unfold lookupEntry
  rw [h]

theorem cite_function_known (s : System) (id : String)
    (doc txt lb : Option String) (tu : Bool) :
    (cite_function s id doc txt lb tu).known = upsert s.known (fnEntry id doc txt lb tu) := rfl

theorem cite_function_used_tracked (s : System) (id : String)
    (doc txt lb : Option String) :
    (cite_function s id doc txt lb true).used = s.used := rfl

theorem cite_function_wrapperMarked (s : System) (id : String)
    (doc txt lb : Option String) (tu : Bool) :
    (cite_function s id doc txt lb tu).wrapperMarked = s.wrapperMarked.erase id := rfl

theorem lookupEntry_cite_function (s : System) (id : String)
    (doc txt lb : Option String) (tu : Bool) :
    lookupEntry (cite_function s id doc txt lb tu) id = some (fnEntry id doc txt lb tu) := by
  unfold lookupEntry
  rw [cite_function_known]
  exact find?_upsert s.known (fnEntry id doc txt lb tu)

theorem callWrapped_first (s : System) (f : String) (e : CitationEntry)
    (hl : lookupEntry s f = some e) (ht : e.trackUsed = true) (hw : f ∉ s.wrapperMarked) :
    callWrapped s f = mark_used { s with wrapperMarked := insertUnique s.wrapperMarked f } f := by
  unfold callWrapped
  simp [hl, ht, hw]

theorem callWrapped_already_marked (s : System) (f : String) (e : CitationEntry)
    (hl : lookupEntry s f = some e) (ht : e.trackUsed = true) (hw : f ∈ s.wrapperMarked) :
    callWrapped s f = s := by
  unfold callWrapped
  simp [hl, ht, hw]

theorem runFrom_replicate_call_fixpoint (c : System) (f : String)
    (h : callWrapped c f = c) (m : Nat) :
    runFrom c (List.replicate m (Op.call f)) = c := by
  induction m with
  | zero => rfl
  | succ k ih =>
    unfold runFrom
    rw [List.replicate_succ, List.foldl_cons]
    show runFrom (step c (Op.call f)) (List.replicate k (Op.call f)) = c
    have hstep : step c (Op.call f) = c := h
    rw [hstep]
    exact ih

/-- C2: a function annotated through the wrapper with default tracking and a
not-yet-used identity is in `all_citations` immediately after registration
but not in `used_citations`; after at least one invocation of the wrapped
callable its identity is in `used_citations`, and after any number of
invocations it appears there exactly once. -/
theorem C2_wrapper_lifecycle (ops : List Op) (f : String) (doc txt lb : Option String)
    (ii : Bool) (n : Nat) (hfresh : f ∉ (runOps ops).used) (hn : 1 ≤ n) :
    f ∈ allIdentities (cite_function (runOps ops) f doc txt lb true) ii
    ∧ f ∉ usedIdentities (cite_function (runOps ops) f doc txt lb true) ii
    ∧ f ∈ usedIdentities
        (runFrom (cite_function (runOps ops) f doc txt lb true)
          (List.replicate n (Op.call f))) ii
    ∧ (usedIdentities
        (runFrom (cite_function (runOps ops) f doc txt lb true)
          (List.replicate n (Op.call f))) ii).count f = 1 := by
  have hwf0 := wf_runOps ops
  set s0 := runOps ops with hs0
  set E := fnEntry f doc txt lb true with hE
  set s1 := cite_function s0 f doc txt lb true with hs1
  have hknown1 : s1.known = upsert s0.known E := rfl
  have hused1 : s1.used = s0.used := rfl
  have hwrap1 : s1.wrapperMarked = s0.wrapperMarked.erase f := rfl
  have hlook1 : lookupEntry s1 f = some E := lookupEntry_cite_function s0 f doc txt lb true
  have hwnotin : f ∉ s1.wrapperMarked := by
    rw [hwrap1]
    exact List.Nodup.not_mem_erase hwf0.2.1
  set sMid : System := { s1 with wrapperMarked := insertUnique s1.wrapperMarked f } with hsMid
  set c1 := mark_used sMid f with hc1
  have hcall1 : callWrapped s1 f = c1 := callWrapped_first s1 f E hlook1 rfl hwnotin
  have hlookMid : lookupEntry sMid f = some E := by
    rw [lookupEntry_known_congr sMid s1 f rfl]
    exact hlook1
  have hkc1 : c1.known = s1.known := by
    rw [hc1, mark_used_known]
  have huc1 : c1.used = insertUnique s0.used f := by
    rw [hc1, mark_used_usedSet sMid f E hlookMid]
    show insertUnique s1.used f = insertUnique s0.used f
    rw [hused1]
  have hwc1 : c1.wrapperMarked = insertUnique s1.wrapperMarked f := by
    rw [hc1, mark_used_wrapperMarked]
  have hfix : callWrapped c1 f = c1 := by
    apply callWrapped_already_marked c1 f E
    · rw [lookupEntry_known_congr c1 s1 f hkc1]
      exact hlook1
    · rfl
    · rw [hwc1]
      exact mem_insertUnique_self _ f
  have hrun : runFrom s1 (List.replicate n (Op.call f)) = c1 := by
    obtain ⟨m, rfl⟩ := Nat.exists_eq_add_of_le hn
    rw [show (1 : Nat) + m = m + 1 from Nat.add_comm 1 m]
    unfold runFrom
    rw [List.replicate_succ, List.foldl_cons]
    show runFrom (step s1 (Op.call f)) (List.replicate m (Op.call f)) = c1
    have hstep : step s1 (Op.call f) = c1 := hcall1
    rw [hstep]
    exact runFrom_replicate_call_fixpoint c1 f hfix m
  have hmemE : E ∈ c1.known := by
    rw [hkc1, hknown1]
    exact mem_upsert_self s0.known E
  have hEid : E.identity = f := rfl
  have hnodup1 : (idsOf s1.known).Nodup := by
    rw [hknown1]
    exact nodup_idsOf_upsert s0.known E hwf0.1
  refine ⟨?_, ?_, ?_, ?_⟩
  · have := mem_allIdentities s1 ii E (by rw [hknown1]; exact mem_upsert_self s0.known E) rfl
    rwa [hEid] at this
  · apply not_mem_usedIdentities s1 ii f
    rw [hused1]
    exact hfresh
  · rw [hrun]
    have := mem_usedIdentities c1 ii E hmemE rfl
      (by rw [hEid, huc1]; exact mem_insertUnique_self s0.used f)
    rwa [hEid] at this
  · rw [hrun]
    apply List.count_eq_one_of_mem
    · apply nodup_usedIdentities c1 ii
      rw [hkc1]
      exact hnodup1
    · have := mem_usedIdentities c1 ii E hmemE rfl
        (by rw [hEid, huc1]; exact mem_insertUnique_self s0.used f)
      rwa [hEid] at this

/-- Witness for C2 at a concrete fresh function and two invocations. -/
theorem C2_wrapper_lifecycle_witness :
    "f" ∈ allIdentities (cite_function (runOps []) "f" none (some "T") none true) false
    ∧ "f" ∉ usedIdentities (cite_function (runOps []) "f" none (some "T") none true) false
    ∧ "f" ∈ usedIdentities
        (runFrom (cite_function (runOps []) "f" none (some "T") none true)
          (List.replicate 2 (Op.call "f"))) false
    ∧ (usedIdentities
        (runFrom (cite_function (runOps []) "f" none (some "T") none true)
          (List.replicate 2 (Op.call "f"))) false).count "f" = 1 :=
  C2_wrapper_lifecycle [] "f" none (some "T") none false 2 (by decide) (by decide)

/-! ## Helper lemmas: frames and broadcasting -/

theorem find?_frames_map (frames : List Frame) (g : Frame → Frame)
    (hg : ∀ fr, (g fr).fid = fr.fid) (fid : Nat) :
    (frames.map g).find? (fun fr => decide (fr.fid = fid)) =
      (frames.find? (fun fr => decide (fr.fid = fid))).map g := by
  rw [List.find?_map]
  have hpred : ((fun fr => decide (fr.fid = fid)) ∘ g) = (fun fr : Frame => decide (fr.fid = fid)) := by
    funext fr
    simp [Function.comp, hg]
  rw [hpred]

theorem frameOf_openFrame_new (s : System) (name : String) (hwf : WF s) :
    frameOf (openFrame s name).1 (openFrame s name).2 =
      some { fid := s.nextFid, name := name, used := [] } := by
  unfold frameOf openFrame
  dsimp only
  rw [List.find?_append]
  have h1 : s.frames.find? (fun fr => decide (fr.fid = s.nextFid)) = none := by
    rw [List.find?_eq_none]
    intro fr hfr
    simp only [decide_eq_true_eq]
    exact Nat.ne_of_lt (hwf.2.2 fr hfr)
  rw [h1]
  simp

theorem get_citations_empty_frame (s : System) (fid : Nat)
    (h : frameUsed s fid = []) : get_citations s fid = [] := by
  unfold get_citations
  rw [h]
  simp

/-- C3: a successful `mark_used` on an identity registered with
`track_used=True` inserts the identity into the set of every currently open
frame, while identities with `track_used=False` never touch any frame; and
the scenario: register a tracked function, open a context, and
`get_citations` on it is empty before any invocation and exactly that
function after one invocation. -/
theorem C3_broadcast_frames :
    (∀ (s : System) (id : String) (e : CitationEntry),
      lookupEntry s id = some e → e.trackUsed = true →
      ∀ fr ∈ (mark_used s id).frames, fr.fid ∈ s.openStack → id ∈ fr.used)
    ∧ (∀ (s : System) (id : String) (e : CitationEntry),
      lookupEntry s id = some e → e.trackUsed = false →
      (mark_used s id).frames = s.frames)
    ∧ (∀ (ops : List Op) (f cname : String) (doc txt lb : Option String),
      get_citations (openFrame (cite_function (runOps ops) f doc txt lb true) cname).1
        (openFrame (cite_function (runOps ops) f doc txt lb true) cname).2 = []
      ∧ get_citations
          (callWrapped (openFrame (cite_function (runOps ops) f doc txt lb true) cname).1 f)
          (openFrame (cite_function (runOps ops) f doc txt lb true) cname).2 =
        [formatEntry (fnEntry f doc txt lb true)]) := by
  refine ⟨?_, ?_, ?_⟩
  · intro s id e hl ht fr hfr hfid
    rw [mark_used_frames_tracked s id e hl ht] at hfr
    obtain ⟨fr0, hfr0, heq⟩ := List.mem_map.mp hfr
    by_cases h0 : fr0.fid ∈ s.openStack
    · rw [if_pos h0] at heq
      rw [← heq]
      exact mem_insertUnique_self fr0.used id
    · rw [if_neg h0] at heq
      rw [← heq] at hfid
      exact absurd hfid h0
  · intro s id e hl ht
    exact mark_used_frames_untracked s id e hl ht
  · intro ops f cname doc txt lb
    have hwf0 := wf_runOps ops
    set s0 := runOps ops with hs0
    set E := fnEntry f doc txt lb true with hE
    set s1 := cite_function s0 f doc txt lb true with hs1
    have hwf1 : WF s1 := wf_cite_function s0 f doc txt lb true hwf0
    set p := openFrame s1 cname with hp
    have hnodup1 : (idsOf s1.known).Nodup := hwf1.1
    have hlook1 : lookupEntry s1 f = some E := lookupEntry_cite_function s0 f doc txt lb true
    have hfrOf : frameOf p.1 p.2 = some { fid := s1.nextFid, name := cname, used := [] } :=
      frameOf_openFrame_new s1 cname hwf1
    have hfu : frameUsed p.1 p.2 = [] := by
      unfold frameUsed
      rw [hfrOf]
      rfl
    refine ⟨get_citations_empty_frame p.1 p.2 hfu, ?_⟩
    have hlookp : lookupEntry p.1 f = some E := by
      rw [lookupEntry_known_congr p.1 s1 f rfl]
      exact hlook1
    have hwnotin : f ∉ p.1.wrapperMarked := by
      show f ∉ s1.wrapperMarked
      rw [cite_function_wrapperMarked]
      exact List.Nodup.not_mem_erase hwf0.2.1
    set pMid : System := { p.1 with wrapperMarked := insertUnique p.1.wrapperMarked f } with hpMid
    have hcall : callWrapped p.1 f = mark_used pMid f :=
      callWrapped_first p.1 f E hlookp rfl hwnotin
    have hlookMid : lookupEntry pMid f = some E := by
      rw [lookupEntry_known_congr pMid p.1 f rfl]
      exact hlookp
    have hframes : (mark_used pMid f).frames = pMid.frames.map (fun fr =>
        if fr.fid ∈ pMid.openStack then { fr with used := insertUnique fr.used f } else fr) :=
      mark_used_frames_tracked pMid f E hlookMid rfl
    have hfrOfC : frameOf (mark_used pMid f) p.2 =
        some { fid := s1.nextFid, name := cname, used := insertUnique [] f } := by
      unfold frameOf
      rw [hframes]
      rw [find?_frames_map]
      · show (pMid.frames.find? (fun fr => decide (fr.fid = p.2))).map _ =  _
        have : pMid.frames.find? (fun fr => decide (fr.fid = p.2)) =
            some { fid := s1.nextFid, name := cname, used := [] } := hfrOf
        rw [this]
        have hmem : ({ fid := s1.nextFid, name := cname, used := [] } : Frame).fid ∈
            p.1.openStack := List.mem_cons_self s1.nextFid s1.openStack
        dsimp only [Option.map]
        rw [if_pos hmem]
      · intro fr
        split <;> rfl
    have hfuC : frameUsed (mark_used pMid f) p.2 = [f] := by
      unfold frameUsed
      rw [hfrOfC]
      show insertUnique [] f = [f]
      rfl
    rw [hcall]
    unfold get_citations
    rw [hfuC]
    have hkC : (mark_used pMid f).known = s1.known := by
      rw [mark_used_known]
      rfl
    rw [hkC]
    have hfilter : s1.known.filter (fun e => decide (e.identity ∈ ([f] : List String))) =
        s1.known.filter (fun e => decide (e.identity = f)) := by
      apply List.filter_congr
      intro x _
      simp
    rw [hfilter]
    rw [filter_key_single s1.known f E hnodup1 hlook1]
    rfl

/-- Witness for C3: the general parts applied at a concrete tracked and a
concrete untracked entry, and the concrete context scenario. -/
theorem C3_broadcast_frames_witness :
    (∀ fr ∈ (mark_used (openFrame (register initSystem "t" "T" "TX" true) "c").1 "t").frames,
      fr.fid ∈ (openFrame (register initSystem "t" "T" "TX" true) "c").1.openStack →
        "t" ∈ fr.used)
    ∧ (mark_used (openFrame (register initSystem "u" "U" "UX" false) "c").1 "u").frames =
        (openFrame (register initSystem "u" "U" "UX" false) "c").1.frames
    ∧ (get_citations (openFrame (cite_function (runOps []) "f" none (some "T") none true) "ctx").1
        (openFrame (cite_function (runOps []) "f" none (some "T") none true) "ctx").2 = []
      ∧ get_citations
          (callWrapped (openFrame (cite_function (runOps []) "f" none (some "T") none true) "ctx").1 "f")
          (openFrame (cite_function (runOps []) "f" none (some "T") none true) "ctx").2 =
        [formatEntry (fnEntry "f" none (some "T") none true)]) :=
  ⟨C3_broadcast_frames.1 (openFrame (register initSystem "t" "T" "TX" true) "c").1 "t"
      { identity := "t", label := "T", citationText := "TX", trackUsed := true,
        importMarker := false } (by decide) (by decide),
   C3_broadcast_frames.2.1 (openFrame (register initSystem "u" "U" "UX" false) "c").1 "u"
      { identity := "u", label := "U", citationText := "UX", trackUsed := false,
        importMarker := false } (by decide) (by decide),
   C3_broadcast_frames.2.2 [] "f" "ctx" none (some "T") none⟩

/-! ## Helper lemmas: the extractor scan -/

theorem matchHere_nil : matchHere [] = none := rfl

theorem scanLines_cons_none (l : List Char) (rest : List (List Char))
    (h : matchHere (l :: rest) = none) : scanLines (l :: rest) = scanLines rest := by
  show (match matchHere (l :: rest) with
        | some t => some t
        | none => scanLines rest) = scanLines rest
  rw [h]

theorem scanLines_cons_some (l : List Char) (rest : List (List Char)) (t : List Char)
    (h : matchHere (l :: rest) = some t) : scanLines (l :: rest) = some t := by
  show (match matchHere (l :: rest) with
        | some t => some t
        | none => scanLines rest) = some t
  rw [h]

theorem scan_least (ls : List (List Char)) (i : Nat) (t : List Char)
    (hfirst : ∀ j, j < i → matchHere (ls.drop j) = none)
    (hm : matchHere (ls.drop i) = some t) :
    scanLines ls = some t := by
  induction i generalizing ls with
  | zero =>
    rw [List.drop_zero] at hm
    cases ls with
    | nil => rw [matchHere_nil] at hm; cases hm
    | cons l rest => exact scanLines_cons_some l rest t hm
  | succ k ih =>
    cases ls with
    | nil =>
      rw [List.drop_nil, matchHere_nil] at hm
      cases hm
    | cons l rest =>
      have h0 : matchHere (l :: rest) = none := by
        have := hfirst 0 (Nat.succ_pos k)
        rwa [List.drop_zero] at this
      rw [scanLines_cons_none l rest h0]
      apply ih rest
      · intro j hj
        have := hfirst (j + 1) (Nat.succ_lt_succ hj)
        rwa [List.drop_succ_cons] at this
      · rwa [List.drop_succ_cons] at hm

theorem scan_none (ls : List (List Char))
    (h : ∀ j, j < ls.length → matchHere (ls.drop j) = none) :
    scanLines ls = none := by
  induction ls with
  | nil => rfl
  | cons l rest ih =>
    have h0 : matchHere (l :: rest) = none := by
      have := h 0 (Nat.succ_pos rest.length)
      rwa [List.drop_zero] at this
    rw [scanLines_cons_none l rest h0]
    apply ih
    intro j hj
    have := h (j + 1) (Nat.succ_lt_succ hj)
    rwa [List.drop_succ_cons] at this

theorem captureLines_spec (ls : List (List Char)) :
    ∃ m, captureLines ls = ls.take m
      ∧ (∀ k, k < m → isHeaderStart (ls.drop k) = false)
      ∧ (isHeaderStart (ls.drop m) = true ∨ ls.length ≤ m) := by
  induction ls with
  | nil =>
    refine ⟨0, rfl, ?_, Or.inr (Nat.le_refl 0)⟩
    intro k hk
    exact absurd hk (Nat.not_lt_zero k)
  | cons l rest ih =>
    cases hh : isHeaderStart (l :: rest) with
    | true =>
      refine ⟨0, ?_, ?_, Or.inl (by rwa [List.drop_zero])⟩
      · unfold captureLines
        rw [if_pos hh]
        rfl
      · intro k hk
        exact absurd hk (Nat.not_lt_zero k)
    | false =>
      obtain ⟨m, h1, h2, h3⟩ := ih
      refine ⟨m + 1, ?_, ?_, ?_⟩
      · unfold captureLines
        rw [if_neg (by simp [hh]), h1]
        rfl
      · intro k hk
        cases k with
        | zero => rwa [List.drop_zero]
        | succ k2 =>
          rw [List.drop_succ_cons]
          exact h2 k2 (Nat.lt_of_succ_lt_succ hk)
      · rw [List.drop_succ_cons]
        rcases h3 with h3 | h3
        · exact Or.inl h3
        · exact Or.inr (by simpa using Nat.succ_le_succ h3)

theorem googleMatch_none_of_keyword (l : List Char) (h : isKeywordLine l = true) :
    googleMatch l = none := by
  unfold isKeywordLine at h
  rw [decide_eq_true_eq] at h
  unfold googleMatch
  have hfind : keywords.find?
      (fun k => prefixOfChars (k ++ [':']) (lowerChars (trimChars l))) = none := by
    rw [List.find?_eq_none]
    intro k hk
    simp only [keywords, List.mem_cons, List.not_mem_nil, or_false] at h hk
    rcases h with h | h | h | h <;> rw [h] <;>
      rcases hk with hk | hk | hk | hk <;> rw [hk] <;> decide
  rw [hfind]

theorem matchHere_cons (l : List Char) (rest : List (List Char)) :
    matchHere (l :: rest) =
      (match googleMatch l with
       | some t => some t
       | none =>
         if isKeywordLine l then
           match rest with
           | l2 :: rest2 =>
             if isDashUnderline l2 then
               some (trimChars (joinLines (captureLines rest2)))
             else none
           | [] => none
         else none) := rfl

theorem matchHere_google (l : List Char) (rest : List (List Char)) (t : List Char)
    (h : googleMatch l = some t) : matchHere (l :: rest) = some t := by
  rw [matchHere_cons, h]

theorem matchHere_numpy (l l2 : List Char) (rest2 : List (List Char))
    (hk : isKeywordLine l = true) (hd : isDashUnderline l2 = true) :
    matchHere (l :: l2 :: rest2) =
      some (trimChars (joinLines (captureLines rest2))) := by
  rw [matchHere_cons, googleMatch_none_of_keyword l hk]
  simp only [hk, hd, if_true]

theorem prefix_comparable (w a b : List Char)
    (ha : prefixOfChars a w = true) (hb : prefixOfChars b w = true) :
    prefixOfChars a b = true ∨ prefixOfChars b a = true := by
  induction w generalizing a b with
  | nil =>
    cases a with
    | nil => exact Or.inl rfl
    | cons x xs => cases ha
  | cons c cs ih =>
    cases a with
    | nil => exact Or.inl rfl
    | cons x xs =>
      cases b with
      | nil => exact Or.inr rfl
      | cons y ys =>
        unfold prefixOfChars at ha hb
        rw [Bool.and_eq_true] at ha hb
        obtain ⟨hx, ha2⟩ := ha
        obtain ⟨hy, hb2⟩ := hb
        rw [decide_eq_true_eq] at hx hy
        rcases ih xs ys ha2 hb2 with hc | hc
        · refine Or.inl ?_
          unfold prefixOfChars
          rw [Bool.and_eq_true, decide_eq_true_eq]
          exact ⟨hx.trans hy.symm, hc⟩
        · refine Or.inr ?_
          unfold prefixOfChars
          rw [Bool.and_eq_true, decide_eq_true_eq]
          exact ⟨hy.trans hx.symm, hc⟩

theorem keyword_prefix_unique (k1 k2 w : List Char)
    (h1 : k1 ∈ keywords) (h2 : k2 ∈ keywords)
    (hp1 : prefixOfChars (k1 ++ [':']) w = true)
    (hp2 : prefixOfChars (k2 ++ [':']) w = true) : k1 = k2 := by
  simp only [keywords, List.mem_cons, List.not_mem_nil, or_false] at h1 h2
  rcases prefix_comparable w _ _ hp1 hp2 with hc | hc <;>
    (rcases h1 with h1 | h1 | h1 | h1 <;> rcases h2 with h2 | h2 | h2 | h2 <;>
      rw [h1, h2] <;> rw [h1, h2] at hc <;>
      first
      | rfl
      | exact absurd hc (by decide))

theorem googleMatch_of_keyword_prefix (l : List Char) (k : List Char)
    (hk : k ∈ keywords)
    (hp : prefixOfChars (k ++ [':']) (lowerChars (trimChars l)) = true) :
    googleMatch l = some (trimChars ((trimChars l).drop (k.length + 1))) := by
  unfold googleMatch
  have hex : (keywords.find?
      (fun k2 => prefixOfChars (k2 ++ [':']) (lowerChars (trimChars l)))).isSome := by
    rw [List.find?_isSome]
    exact ⟨k, hk, hp⟩
  obtain ⟨k2, hk2⟩ := Option.isSome_iff_exists.mp hex
  have hk2mem : k2 ∈ keywords := List.mem_of_find?_eq_some hk2
  have hk2p : prefixOfChars (k2 ++ [':']) (lowerChars (trimChars l)) = true := by
    have h3 := List.find?_some hk2
    simpa using h3
  have hkk : k2 = k := keyword_prefix_unique k2 k (lowerChars (trimChars l)) hk2mem hk hk2p hp
  have hfind : keywords.find?
      (fun k2 => prefixOfChars (k2 ++ [':']) (lowerChars (trimChars l))) = some k := by
    rw [hk2, hkk]
  rw [hfind]

/-- C6 (amended): when a Google-style line — a recognised keyword
immediately followed by `:` — begins the earliest matching section of the
docstring, the extractor returns exactly the text after the colon on that
line only, with surrounding whitespace trimmed; in particular
"Citation: Foo 2025" yields "Foo 2025". -/
theorem C6_google_extraction :
    (∀ (doc : String) (i : Nat) (l : List Char) (rest : List (List Char)) (k : List Char),
      (splitLines doc.data).drop i = l :: rest →
      k ∈ keywords →
      prefixOfChars (k ++ [':']) (lowerChars (trimChars l)) = true →
      (∀ j, j < i → matchHere ((splitLines doc.data).drop j) = none) →
      extract_citation doc = String.mk (trimChars ((trimChars l).drop (k.length + 1))))
    ∧ extract_citation "Citation: Foo 2025" = "Foo 2025" := by
  constructor
  · intro doc i l rest k hdrop hk hp hfirst
    have hg : googleMatch l = some (trimChars ((trimChars l).drop (k.length + 1))) :=
      googleMatch_of_keyword_prefix l k hk hp
    have hm : matchHere ((splitLines doc.data).drop i) =
        some (trimChars ((trimChars l).drop (k.length + 1))) := by
      rw [hdrop]
      exact matchHere_google l rest _ hg
    have hscan := scan_least (splitLines doc.data) i _ hfirst hm
    unfold extract_citation
    rw [hscan]
  · decide

/-- Witness for C6 at the spec's own example docstring. -/
theorem C6_google_extraction_witness :
    extract_citation "Citation: Foo 2025" =
      String.mk (trimChars ((trimChars "Citation: Foo 2025".data).drop
        ("citation".data.length + 1))) :=
  C6_google_extraction.1 "Citation: Foo 2025" 0 "Citation: Foo 2025".data []
    "citation".data (by decide) (by decide) (by decide)
    (fun j hj => absurd hj (Nat.not_lt_zero j))

/-- Counterexample to C6 as frozen: it asserts the Google rule for every
docstring containing such a line, but when an earlier section matches first
the extractor returns that earlier section's text instead — only the first
matching section is used (spec 4.1). -/
theorem C6_google_counterexample :
    ¬ (∀ (doc : String) (l t : List Char),
        l ∈ splitLines doc.data → googleMatch l = some t →
        extract_citation doc = String.mk t) := by
  intro h
  have h2 := h "Citation: A\nReference: B" "Reference: B".data "B".data
    (by decide) (by decide)
  have h3 : extract_citation "Citation: A\nReference: B" = "A" := by decide
  rw [h3] at h2
  exact absurd h2 (by decide)

/-- C7: when a recognised keyword stands alone on a line followed by a line
of two or more dashes, and that numpy-style section is the earliest match,
the extractor returns every subsequent line up to but not including the
next recognized section header (or the end of text); in particular the
spec's example yields "Foo\nBar". -/
theorem C7_numpy_extraction :
    (∀ (doc : String) (i : Nat) (l l2 : List Char) (rest2 : List (List Char)),
      (splitLines doc.data).drop i = l :: l2 :: rest2 →
      isKeywordLine l = true →
      isDashUnderline l2 = true →
      (∀ j, j < i → matchHere ((splitLines doc.data).drop j) = none) →
      ∃ m, extract_citation doc = String.mk (trimChars (joinLines (rest2.take m)))
        ∧ (∀ k, k < m → isHeaderStart (rest2.drop k) = false)
        ∧ (isHeaderStart (rest2.drop m) = true ∨ rest2.length ≤ m))
    ∧ extract_citation "Citation\n--------\nFoo\nBar\n\nParameters\n----------\nx" =
        "Foo\nBar" := by
  constructor
  · intro doc i l l2 rest2 hdrop hk hd hfirst
    obtain ⟨m, hcap, hnoh, hend⟩ := captureLines_spec rest2
    refine ⟨m, ?_, hnoh, hend⟩
    have hm : matchHere ((splitLines doc.data).drop i) =
        some (trimChars (joinLines (captureLines rest2))) := by
      rw [hdrop]
      exact matchHere_numpy l l2 rest2 hk hd
    have hscan := scan_least (splitLines doc.data) i _ hfirst hm
    unfold extract_citation
    rw [hscan, hcap]
  · decide

/-- Witness for C7 at the spec's own example docstring. -/
theorem C7_numpy_extraction_witness :
    ∃ m, extract_citation "Citation\n--------\nFoo\nBar\n\nParameters\n----------\nx" =
        String.mk (trimChars (joinLines
          ((splitLines "Foo\nBar\n\nParameters\n----------\nx".data).take m)))
      ∧ (∀ k, k < m →
          isHeaderStart ((splitLines "Foo\nBar\n\nParameters\n----------\nx".data).drop k)
            = false)
      ∧ (isHeaderStart ((splitLines "Foo\nBar\n\nParameters\n----------\nx".data).drop m)
            = true
         ∨ (splitLines "Foo\nBar\n\nParameters\n----------\nx".data).length ≤ m) :=
  C7_numpy_extraction.1 "Citation\n--------\nFoo\nBar\n\nParameters\n----------\nx" 0
    "Citation".data "--------".data
    (splitLines "Foo\nBar\n\nParameters\n----------\nx".data)
    (by decide) (by decide) (by decide)
    (fun j hj => absurd hj (Nat.not_lt_zero j))

/-- C8: the extractor is a total function; when no line of the docstring
matches a citation section in either style it returns the entire docstring
trimmed, and an empty or absent docstring yields the empty string. -/
theorem C8_extractor_total :
    (∀ doc : String,
      (∀ j, j < (splitLines doc.data).length →
        matchHere ((splitLines doc.data).drop j) = none) →
      extract_citation doc = String.mk (trimChars doc.data))
    ∧ extract_citation "" = ""
    ∧ extractFromDocstring none = "" := by
  refine ⟨?_, by decide, rfl⟩
  intro doc h
  have hscan : scanLines (splitLines doc.data) = none := scan_none _ h
  unfold extract_citation
  rw [hscan]

/-- Witness for C8 on a docstring with no recognised keyword. -/
theorem C8_extractor_total_witness :
    extract_citation "  hello world " = String.mk (trimChars "  hello world ".data) :=
  C8_extractor_total.1 "  hello world " (by decide)

end CitationCompass
